import Mathlib

/-!
A verification model of the `dmheap` fixed-buffer allocator (`src/dmheap.c`).

The C heap is a contiguous byte region carved into blocks; every block is a
`block_t` header followed by its payload.  We model each block as a record
carrying the address the header lives at (`self`, the value of the C pointer
to the `block_t`) together with the C struct fields `address` (payload base),
`size` (payload size) and `owner`.  The intrusive `next` pointers of the C
lists are modelled by the order of Lean lists; the C code only ever splices
`next` pointers through the helper functions modelled below, and each model
function documents how its list surgery corresponds to the pointer surgery.

Machine integers (`size_t` / `uintptr_t`) are modelled as `Nat`; the bitwise
alignment formulas, whose meaning depends on the 64-bit word width, are
translated with an explicit `% 2^64`.  `NULL` is modelled as the address `0`.
Where the C code would wrap around (`size_t` underflow) the `Nat` subtraction
truncates instead; every theorem below only evaluates the model inside the
bounds where the two semantics agree.

Module records (`module_t`) live inside the heap; a record is identified by
its address (the C pointer), modelled by the field `self`.  The bounded
`strncmp`/`strncpy` on names is modelled by plain `String` equality/copy,
which is faithful for names shorter than `DMOD_MAX_MODULE_NAME_LENGTH`.
-/

/-- Size of the 64-bit address space: `uintptr_t` / `size_t` arithmetic is
modulo this value. -/
def addr_space : Nat := 2 ^ 64

/-- Value of `sizeof(block_t)` on the LP64 targets the repository's tests
build for: four 8-byte fields (`next`, `address`, `size`, `owner`). -/
def sizeof_block_t : Nat := 32

/-- Value of `sizeof(module_t)`: `char name[DMOD_MAX_MODULE_NAME_LENGTH]`
with `DMOD_MAX_MODULE_NAME_LENGTH = 64`, plus the 8-byte `next` pointer. -/
def sizeof_module_t : Nat := 72

/-- Model of `module_t`.  `self` is the address of the record (the value of
the C `module_t*`); the intrusive `next` pointer becomes list order. -/
structure module_t where
  self : Nat
  name : String
deriving DecidableEq, Repr

/-- Model of `block_t`.  `self` is the address the header lives at (the value
of the C `block_t*`); `address`, `size` and `owner` are the struct fields
(`owner` holds the address of the owning `module_t`, `none` for `NULL`).
The `next` field becomes list order. -/
structure block_t where
  self : Nat
  address : Nat
  size : Nat
  owner : Option Nat
deriving DecidableEq, Repr

/-- Model of `context_t` (the global `g_dmheap_context`). -/
structure context_t where
  heap_start : Nat
  heap_size : Nat
  free_list : List block_t
  used_list : List block_t
  alignment : Nat
  module_list : List module_t
deriving DecidableEq, Repr

/-- `align_pointer`: `(p + (alignment - 1)) & ~(alignment - 1)` on
`uintptr_t`.  For `alignment ≥ 1` the 64-bit complement `~(alignment - 1)`
equals `2^64 - alignment`; for `alignment = 0` the C expression evaluates to
`(p - 1) & 0 = 0` and the model also yields `p &&& 0 = 0`. -/
def align_pointer (p alignment : Nat) : Nat :=
  ((p + (alignment - 1)) % addr_space) &&& ((addr_space - alignment) % addr_space)

/-- `align_size`: same 64-bit bit formula as `align_pointer`, applied to a
`size_t`. -/
def align_size (size alignment : Nat) : Nat :=
  ((size + (alignment - 1)) % addr_space) &&& ((addr_space - alignment) % addr_space)

/-- `create_block`: lays a header at `address` governing `size` raw bytes.
The C code leaves `owner` uninitialized here; the model uses `none` (callers
that care overwrite it, and the initial free block's `owner` is never read
before being overwritten). -/
def create_block (address size : Nat) : block_t :=
  { self := address
    address := address + sizeof_block_t
    size := size - sizeof_block_t
    owner := none }

/-- `split_block`: splits `block` so that its payload keeps
`align_size size alignment` bytes and a new block is fabricated right after.
Returns `(shrunk original, new block)`, or `none` when the block is too small
(the C function returns `NULL` and leaves the block unchanged).  The C
function also splices the new block after `block` in whatever list holds it;
every caller in the source invokes it on a detached block, so the model
returns the pair and lets the caller place the two fragments. -/
def split_block (alignment : Nat) (block : block_t) (size : Nat) :
    Option (block_t × block_t) :=
  if block.size < size + sizeof_block_t + 1 then none
  else
    let aligned_size := align_size size alignment
    if block.size < aligned_size + sizeof_block_t + 1 then none
    else
      let new_block : block_t :=
        { self := block.address + aligned_size
          address := block.address + aligned_size + sizeof_block_t
          size := block.size - aligned_size - sizeof_block_t
          owner := block.owner }
      some ({ block with size := aligned_size }, new_block)

/-- `merge_blocks`: the C adjacency test is
`(uintptr_t)first->address + first->size + sizeof(block_t) == (uintptr_t)second`;
on success it grows `first` by `sizeof(block_t) + second->size` and takes over
`second`'s `next` link (list surgery handled by each caller). -/
def merge_blocks (first second_ : block_t) : Option block_t :=
  if first.address + first.size + sizeof_block_t ≠ second_.self then none
  else some { first with size := first.size + sizeof_block_t + second_.size }

/-- `remove_block`: unlinks the first list node whose pointer equals
`block_to_remove` (pointer identity is `self` in the model); a miss leaves
the list unchanged, exactly like the C loop running off the end. -/
def remove_block (l : List block_t) (self : Nat) : List block_t :=
  match l with
  | [] => []
  | b :: rest => if b.self = self then rest else b :: remove_block rest self

/-- `add_block`: pushes a block on the front of a list. -/
def add_block (l : List block_t) (block_to_add : block_t) : List block_t :=
  block_to_add :: l

/-- `find_suitable_block`: first-fit scan of the free list.  For each
candidate the padding to the aligned payload address is computed; the block
suits when `size > min_size` with `min_size = size + padding + sizeof(block_t)`
if padding is needed. -/
def find_suitable_block (l : List block_t) (size alignment : Nat) :
    Option block_t :=
  match l with
  | [] => none
  | current :: rest =>
    let aligned_address := align_pointer current.address alignment
    let padding := aligned_address - current.address
    let min_size := if padding > 0 then size + padding + sizeof_block_t else size
    if current.size > min_size then some current
    else find_suitable_block rest size alignment

/-- `find_block_by_address`: first block of the used list whose payload base
equals `address`. -/
def find_block_by_address (l : List block_t) (address : Nat) : Option block_t :=
  match l with
  | [] => none
  | current :: rest =>
    if current.address = address then some current
    else find_block_by_address rest address

/-- `find_module_by_name`: linear scan by name (the bounded `strncmp` is
modelled as `String` equality). -/
def find_module_by_name (l : List module_t) (name : String) : Option module_t :=
  match l with
  | [] => none
  | current :: rest =>
    if current.name = name then some current
    else find_module_by_name rest name

/-- `remove_module_from_list`: unlinks the first record whose pointer equals
`module_to_remove` (pointer identity is `self`). -/
def remove_module_from_list (l : List module_t) (self : Nat) : List module_t :=
  match l with
  | [] => []
  | m :: rest => if m.self = self then rest else m :: remove_module_from_list rest self

/-- `add_module_to_list`: push-front. -/
def add_module_to_list (l : List module_t) (module : module_t) : List module_t :=
  module :: l

/-- `create_module`: carves a block for a `module_t` record out of the free
list with the same find-fit/split path, stamps the (truncated) name, puts the
block on the used list and prepends the record to the module list.  The C
code does not assign the block's `owner`; the model keeps whatever the block
carried. -/
def create_module (s : context_t) (name : String) : Option module_t × context_t :=
  match find_suitable_block s.free_list sizeof_module_t s.alignment with
  | none => (none, s)
  | some block =>
    let free₁ := remove_block s.free_list block.self
    let (block, free₂) :=
      if block.size > sizeof_module_t + sizeof_block_t + s.alignment then
        match split_block s.alignment block sizeof_module_t with
        | some (shrunk, new_block) => (shrunk, add_block free₁ new_block)
        | none => (block, free₁)
      else (block, free₁)
    let module : module_t := { self := block.address, name := name }
    (some module,
      { s with
        free_list := free₂
        used_list := add_block s.used_list block
        module_list := add_module_to_list s.module_list module })

/-- `release_memory_of_module`: walks the used list; every block whose
`owner` equals the record is unlinked and prepended to the free list, in
traversal order, exactly like the C loop. -/
def release_memory_of_module (module_self : Nat) :
    List block_t → List block_t → List block_t × List block_t
  | [], free => ([], free)
  | current :: rest, free =>
    if current.owner = some module_self then
      release_memory_of_module module_self rest (add_block free current)
    else
      let (used', free') := release_memory_of_module module_self rest free
      (current :: used', free')

/-- `delete_module`: reclaims everything the module owns, unlinks the record,
then moves the block housing the record itself from the used to the free
list. -/
def delete_module (s : context_t) (module : module_t) : context_t :=
  let (used₁, free₁) :=
    release_memory_of_module module.self s.used_list s.free_list
  let modules₁ := remove_module_from_list s.module_list module.self
  match find_block_by_address used₁ module.self with
  | none =>
    { s with used_list := used₁, free_list := free₁, module_list := modules₁ }
  | some block =>
    { s with
      used_list := remove_block used₁ block.self
      free_list := add_block free₁ block
      module_list := modules₁ }

/-- `get_or_create_module`. -/
def get_or_create_module (s : context_t) (name : String) :
    Option module_t × context_t :=
  match find_module_by_name s.module_list name with
  | some module => (some module, s)
  | none => create_module s name

/-- `dmheap_init`: rejects a null buffer or a zero size (and nothing else),
then installs one free block covering the whole region. -/
def dmheap_init (buffer size alignment : Nat) : Option context_t :=
  if buffer = 0 ∨ size = 0 then none
  else
    some
      { heap_start := buffer
        heap_size := size
        free_list := [create_block buffer size]
        used_list := []
        alignment := alignment
        module_list := [] }

/-- `dmheap_is_initialized`. -/
def dmheap_is_initialized (s : context_t) : Bool :=
  s.heap_start ≠ 0

/-- Padding stage of `dmheap_aligned_alloc` (the `if( padding > 0 )` body):
resolves the padding to the aligned payload address.  Yields the caller
pointer, the working block and the updated state, or `none` when the
function gives up (the C code re-inserts the block and returns `NULL`; the
`padding ≥ sizeof(block_t)` split-failure arm additionally raises
`DMOD_ASSERT_MSG(false, ...)`). -/
def aa_handle_padding (s : context_t) (alignment aligned_size : Nat)
    (block : block_t) : Option (Nat × block_t × context_t) :=
  let aligned_address := align_pointer block.address alignment
  let padding := aligned_address - block.address
  if padding = 0 then some (aligned_address, block, s)
  else if padding ≥ sizeof_block_t then
    match split_block s.alignment block (padding - sizeof_block_t) with
    | some (front, usable) =>
      some (aligned_address, usable,
        { s with free_list := add_block s.free_list front })
    | none => none
  else
    let search_start := block.address + sizeof_block_t
    let next_aligned := align_pointer search_start alignment
    let new_padding := next_aligned - block.address
    if new_padding ≥ sizeof_block_t ∧
        block.size ≥ new_padding - sizeof_block_t + aligned_size then
      match split_block s.alignment block (new_padding - sizeof_block_t) with
      | some (front, usable) =>
        some (usable.address, usable,
          { s with free_list := add_block s.free_list front })
      | none => none
    else none

/-- Final stage of `dmheap_aligned_alloc`: the optional size split of the
working block, the module tagging and the push onto the used list. -/
def aa_finish (s : context_t) (aligned_size : Nat)
    (module_name : Option String) (ret : Nat) (block : block_t) :
    Option Nat × context_t :=
  let (block, s₃) :=
    if block.size > aligned_size + sizeof_block_t + 1 then
      match split_block s.alignment block aligned_size with
      | some (shrunk, new_block) =>
        (shrunk, { s with free_list := add_block s.free_list new_block })
      | none => (block, s)
    else (block, s)
  let (module?, s₄) :=
    match module_name with
    | none => (none, s₃)
    | some name => get_or_create_module s₃ name
  let block := { block with owner := module?.map module_t.self }
  (some ret, { s₄ with used_list := add_block s₄.used_list block })

/-- `dmheap_aligned_alloc`: the aligned-allocation algorithm of the source,
returning the caller pointer (`none` for `NULL`) and the next heap state. -/
def dmheap_aligned_alloc (s : context_t) (alignment size : Nat)
    (module_name : Option String) : Option Nat × context_t :=
  let aligned_size := align_size size alignment
  match find_suitable_block s.free_list aligned_size alignment with
  | none => (none, s)
  | some block =>
    let s₁ := { s with free_list := remove_block s.free_list block.self }
    match aa_handle_padding s₁ alignment aligned_size block with
    | none => (none, { s₁ with free_list := add_block s₁.free_list block })
    | some (ret, block, s₂) => aa_finish s₂ aligned_size module_name ret block

/-- `dmheap_malloc`: thin wrapper over `dmheap_aligned_alloc` with the
context's default alignment. -/
def dmheap_malloc (s : context_t) (size : Nat) (module_name : Option String) :
    Option Nat × context_t :=
  dmheap_aligned_alloc s s.alignment size module_name

/-- One pass of the coalescing loop of `dmheap_free`: `block` has just been
prepended to the free list and `current` walks the remainder of the list.
Each iteration attempts `merge_blocks(block, current)` (success drops
`current` from the chain) and then `merge_blocks(current, block)`.  When the
first merge succeeded, the second one only mutates the already detached
`current`, so it has no list effect; when only the second succeeds, the C
code makes `current->next` point back into the chain of the list head
`block`, the traversal cycles and the loop never terminates — the model
returns `none` for that (never reached) outcome. -/
def free_merge_pass (block : block_t) :
    List block_t → Option (block_t × List block_t)
  | [] => some (block, [])
  | current :: rest =>
    if current.self = block.self then
      (free_merge_pass block rest).map (fun p => (p.1, current :: p.2))
    else
      match merge_blocks block current with
      | some merged => free_merge_pass merged rest
      | none =>
        match merge_blocks current block with
        | some _ => none
        | none => (free_merge_pass block rest).map (fun p => (p.1, current :: p.2))

/-- `dmheap_free`: a null pointer is a no-op; an address that is not the
payload base of a used block is logged and ignored; otherwise the block moves
from the used to the free list and, when `concatenate` is set, the pairwise
merge pass runs over the free list. -/
def dmheap_free (s : context_t) (ptr : Nat) (concatenate : Bool) :
    Option context_t :=
  if ptr = 0 then some s
  else
    match find_block_by_address s.used_list ptr with
    | none => some s
    | some block =>
      let used₁ := remove_block s.used_list block.self
      if concatenate then
        match free_merge_pass block s.free_list with
        | some (block', rest') =>
          some { s with used_list := used₁, free_list := block' :: rest' }
        | none => none
      else
        some { s with used_list := used₁, free_list := add_block s.free_list block }

/-- `dmheap_realloc`: null pointer behaves as `malloc`; an unknown pointer is
an error returning `NULL` with the state unchanged; shrink splits in place,
grow allocates fresh, copies (byte contents are not modelled) and frees the
old block. -/
def dmheap_realloc (s : context_t) (ptr size : Nat)
    (module_name : Option String) : Option Nat × context_t :=
  if ptr = 0 then dmheap_aligned_alloc s s.alignment size module_name
  else
    match find_block_by_address s.used_list ptr with
    | none => (none, s)
    | some block =>
      if size < block.size then
        let used₁ := remove_block s.used_list block.self
        match split_block s.alignment block size with
        | some (shrunk, new_block) =>
          (some ptr,
            { s with
              used_list := add_block used₁ shrunk
              free_list := add_block s.free_list new_block })
        | none => (some ptr, { s with used_list := add_block used₁ block })
      else if size > block.size then
        match dmheap_aligned_alloc s s.alignment size module_name with
        | (some new_ptr, s') =>
          (some new_ptr,
            { s' with
              used_list := remove_block s'.used_list block.self
              free_list := add_block s'.free_list block })
        | (none, s') => (none, s')
      else (some ptr, s)

/-- `dmheap_register_module`: succeed-and-warn on a duplicate, otherwise
create the record; fails only when the record cannot be allocated. -/
def dmheap_register_module (s : context_t) (name : String) : Bool × context_t :=
  match find_module_by_name s.module_list name with
  | some _ => (true, s)
  | none =>
    match create_module s name with
    | (some _, s') => (true, s')
    | (none, s') => (false, s')

/-- `dmheap_unregister_module`: the C function first copies the name into a
local buffer (a no-op for the model's immutable strings), then deletes the
module if it is registered. -/
def dmheap_unregister_module (s : context_t) (name : String) : context_t :=
  match find_module_by_name s.module_list name with
  | none => s
  | some module => delete_module s module

/-- Inner loop of `dmheap_concatenate_free_blocks` for one `current` block:
`kept` holds, in reverse, the scanned blocks that stayed chained between
`current` and the scan position.  On a merge success the C code sets
`current->next = next->next`, which detaches exactly the blocks in `kept`
from the chain, so the model drops them and restarts the scan at the new
successor; on failure the scanned block is kept and the scan advances. -/
def concat_inner (current : block_t) (kept : List block_t) :
    List block_t → block_t × List block_t
  | [] => (current, kept.reverse)
  | next :: rest =>
    match merge_blocks current next with
    | some merged => concat_inner merged [] rest
    | none => concat_inner current (next :: kept) rest

/-- Outer loop of `dmheap_concatenate_free_blocks`, fuelled by the list
length (the chain after the current position only ever shrinks, so the fuel
never runs out on the lists the model is applied to). -/
def concat_outer_go (fuel : Nat) (l : List block_t) : List block_t :=
  match fuel, l with
  | 0, l => l
  | _ + 1, [] => []
  | fuel + 1, current :: rest =>
    (concat_inner current [] rest).1 ::
      concat_outer_go fuel (concat_inner current [] rest).2

/-- `dmheap_concatenate_free_blocks`: all-pairs merge pass over the free
list. -/
def dmheap_concatenate_free_blocks (s : context_t) : context_t :=
  { s with free_list := concat_outer_go s.free_list.length s.free_list }

/-! ### Verification-side definitions -/

/-- Spec invariant 2 (first half): the payload base of a block sits
immediately after its header. -/
def BlockOk (b : block_t) : Prop :=
  b.address = b.self + sizeof_block_t

instance (b : block_t) : Decidable (BlockOk b) := by
  unfold BlockOk; infer_instance

/-- The header-placement invariant over a whole heap state. -/
def context_inv (s : context_t) : Prop :=
  (∀ b ∈ s.free_list, BlockOk b) ∧ (∀ b ∈ s.used_list, BlockOk b)

/-- Heap states reachable from `dmheap_init` by the public operations.
`dmheap_free` only contributes a successor when the model can represent the
outcome (the `none` case is the non-terminating coalesce loop, which never
produces a state in C either). -/
inductive Reachable : context_t → Prop
  | init (buffer size alignment : Nat) (s : context_t)
      (h : dmheap_init buffer size alignment = some s) : Reachable s
  | malloc (s : context_t) (size : Nat) (module_name : Option String)
      (h : Reachable s) : Reachable (dmheap_malloc s size module_name).2
  | aligned_alloc (s : context_t) (alignment size : Nat)
      (module_name : Option String) (h : Reachable s) :
      Reachable (dmheap_aligned_alloc s alignment size module_name).2
  | realloc (s : context_t) (ptr size : Nat) (module_name : Option String)
      (h : Reachable s) : Reachable (dmheap_realloc s ptr size module_name).2
  | free (s : context_t) (ptr : Nat) (concatenate : Bool) (s' : context_t)
      (h : Reachable s) (h' : dmheap_free s ptr concatenate = some s') :
      Reachable s'
  | concatenate_free_blocks (s : context_t) (h : Reachable s) :
      Reachable (dmheap_concatenate_free_blocks s)
  | register_module (s : context_t) (name : String) (h : Reachable s) :
      Reachable (dmheap_register_module s name).2
  | unregister_module (s : context_t) (name : String) (h : Reachable s) :
      Reachable (dmheap_unregister_module s name)

/-- Power-of-two test (`n` is a power of two iff it is nonzero and has a
single set bit). -/
def is_pow2 (n : Nat) : Bool :=
  n != 0 && (n &&& (n - 1)) == 0

/-! ### Arithmetic facts about the alignment formulas -/

theorem align_size_eq_align_pointer : align_size = align_pointer := rfl

/-- Masking a 64-bit value with `2^64 - 2^k` clears its low `k` bits. -/
theorem land_two_pow_comp {k : Nat} (hk : k ≤ 64) {x : Nat} (hx : x < 2 ^ 64) :
    x &&& (2 ^ 64 - 2 ^ k) = 2 ^ k * (x / 2 ^ k) := by
  have hsplit : 2 ^ 64 - 2 ^ k = (2 ^ (64 - k) - 1) <<< k := by
    rw [Nat.shiftLeft_eq, Nat.sub_mul, one_mul, ← pow_add, Nat.sub_add_cancel hk]
  have hRHS : 2 ^ k * (x / 2 ^ k) = (x >>> k) <<< k := by
    rw [Nat.shiftRight_eq_div_pow, Nat.shiftLeft_eq, Nat.mul_comm]
  apply Nat.eq_of_testBit_eq
  intro i
  rw [Nat.testBit_land, hsplit, hRHS, Nat.testBit_shiftLeft, Nat.testBit_shiftLeft,
      Nat.testBit_two_pow_sub_one, Nat.testBit_shiftRight]
  by_cases hik : k ≤ i
  · by_cases hi : i < 64
    · have h1 : i - k < 64 - k := by omega
      have h2 : k + (i - k) = i := by omega
      simp [hik, h1, h2, ge_iff_le]
    · have h1 : ¬ i - k < 64 - k := by omega
      have h2 : k + (i - k) = i := by omega
      have h3 : x.testBit i = false :=
        Nat.testBit_lt_two_pow
          (lt_of_lt_of_le hx (Nat.pow_le_pow_right (by omega) (by omega)))
      simp [hik, h1, h2, h3, ge_iff_le]
  · simp [hik, ge_iff_le]

/-- For a power-of-two alignment that fits the word, `align_pointer` is the
usual round-up to the next multiple of `2^k`. -/
theorem align_pointer_two_pow {p k : Nat} (hk : k ≤ 64) (hp : p + 2 ^ k ≤ 2 ^ 64) :
    align_pointer p (2 ^ k) = 2 ^ k * ((p + (2 ^ k - 1)) / 2 ^ k) := by
  have hpos : 0 < 2 ^ k := Nat.pos_pow_of_pos _ (by omega)
  have h1 : (p + (2 ^ k - 1)) % addr_space = p + (2 ^ k - 1) :=
    Nat.mod_eq_of_lt (by unfold addr_space; omega)
  have h2 : (addr_space - 2 ^ k) % addr_space = 2 ^ 64 - 2 ^ k := by
    have h64 : 0 < 2 ^ 64 := Nat.pos_pow_of_pos _ (by omega)
    have hle : 2 ^ k ≤ 2 ^ 64 := Nat.pow_le_pow_right (by omega) hk
    exact Nat.mod_eq_of_lt (by unfold addr_space; omega)
  unfold align_pointer
  rw [h1, h2, land_two_pow_comp hk (by omega)]

theorem align_pointer_dvd {p k : Nat} (hk : k ≤ 64) (hp : p + 2 ^ k ≤ 2 ^ 64) :
    2 ^ k ∣ align_pointer p (2 ^ k) :=
  Dvd.intro _ (align_pointer_two_pow hk hp).symm

theorem le_align_pointer {p k : Nat} (hk : k ≤ 64) (hp : p + 2 ^ k ≤ 2 ^ 64) :
    p ≤ align_pointer p (2 ^ k) := by
  rw [align_pointer_two_pow hk hp]
  have hpos : 0 < 2 ^ k := Nat.pos_pow_of_pos _ (by omega)
  have h1 := Nat.div_add_mod (p + (2 ^ k - 1)) (2 ^ k)
  have h2 : (p + (2 ^ k - 1)) % 2 ^ k < 2 ^ k := Nat.mod_lt _ hpos
  omega

theorem align_pointer_lt {p k : Nat} (hk : k ≤ 64) (hp : p + 2 ^ k ≤ 2 ^ 64) :
    align_pointer p (2 ^ k) < p + 2 ^ k := by
  rw [align_pointer_two_pow hk hp]
  have hpos : 0 < 2 ^ k := Nat.pos_pow_of_pos _ (by omega)
  have h1 := Nat.div_add_mod (p + (2 ^ k - 1)) (2 ^ k)
  have h2 : (p + (2 ^ k - 1)) % 2 ^ k < 2 ^ k := Nat.mod_lt _ hpos
  omega

theorem align_pointer_eq_of_dvd {p k : Nat} (hk : k ≤ 64)
    (hp : p + 2 ^ k ≤ 2 ^ 64) (hd : 2 ^ k ∣ p) :
    align_pointer p (2 ^ k) = p := by
  obtain ⟨m, rfl⟩ := hd
  rw [align_pointer_two_pow hk hp]
  have hpos : 0 < 2 ^ k := Nat.pos_pow_of_pos _ (by omega)
  rw [Nat.add_comm, Nat.add_mul_div_left _ _ hpos,
      Nat.div_eq_of_lt (by omega), Nat.zero_add]

theorem dvd_align_pointer {p j k : Nat} (hjk : j ≤ k) (hk : k ≤ 64)
    (hp : p + 2 ^ k ≤ 2 ^ 64) : 2 ^ j ∣ align_pointer p (2 ^ k) :=
  dvd_trans (pow_dvd_pow 2 hjk) (align_pointer_dvd hk hp)

theorem align_size_eq_of_dvd {x j : Nat} (hj : j ≤ 64)
    (hx : x + 2 ^ j ≤ 2 ^ 64) (hd : 2 ^ j ∣ x) :
    align_size x (2 ^ j) = x := by
  rw [align_size_eq_align_pointer]
  exact align_pointer_eq_of_dvd hj hx hd

/-! ### Basic facts about the list helpers -/

theorem remove_block_sublist (l : List block_t) (a : Nat) :
    (remove_block l a).Sublist l := by
  induction l with
  | nil => simp [remove_block]
  | cons b rest ih =>
    by_cases h : b.self = a
    · simp [remove_block, h]
    · simpa [remove_block, h] using ih.cons₂ b

theorem mem_of_mem_remove_block {l : List block_t} {a : Nat} {b : block_t}
    (h : b ∈ remove_block l a) : b ∈ l :=
  (remove_block_sublist l a).mem h

theorem not_mem_remove_block_self {l : List block_t} {b : block_t}
    (hnd : (l.map block_t.self).Nodup) (hb : b ∈ l) :
    b ∉ remove_block l b.self := by
  induction l with
  | nil => simp at hb
  | cons x rest ih =>
    simp only [List.map_cons, List.nodup_cons] at hnd
    rcases List.mem_cons.mp hb with rfl | hb'
    · have heq : remove_block (b :: rest) b.self = rest := by
        simp [remove_block]
      rw [heq]
      exact fun hmem => hnd.1 (List.mem_map.mpr ⟨b, hmem, rfl⟩)
    · have hx : x.self ≠ b.self := fun he =>
        hnd.1 (he ▸ List.mem_map.mpr ⟨b, hb', rfl⟩)
      simp only [remove_block, if_neg hx, List.mem_cons]
      rintro (rfl | hmem)
      · exact hx rfl
      · exact ih hnd.2 hb' hmem

theorem find_suitable_block_spec {l : List block_t} {size alignment : Nat}
    {b : block_t} (h : find_suitable_block l size alignment = some b) :
    b ∈ l ∧
      b.size >
        (if align_pointer b.address alignment - b.address > 0 then
          size + (align_pointer b.address alignment - b.address) + sizeof_block_t
        else size) := by
  induction l with
  | nil => simp [find_suitable_block] at h
  | cons x rest ih =>
    by_cases hx :
        x.size >
          (if align_pointer x.address alignment - x.address > 0 then
            size + (align_pointer x.address alignment - x.address) + sizeof_block_t
          else size)
    · rw [find_suitable_block, if_pos hx] at h
      cases h
      exact ⟨List.mem_cons_self _ _, hx⟩
    · rw [find_suitable_block, if_neg hx] at h
      exact ⟨List.mem_cons_of_mem x (ih h).1, (ih h).2⟩

theorem find_block_by_address_some {l : List block_t} {a : Nat} {b : block_t}
    (h : find_block_by_address l a = some b) : b ∈ l ∧ b.address = a := by
  induction l with
  | nil => simp [find_block_by_address] at h
  | cons x rest ih =>
    by_cases hx : x.address = a
    · rw [find_block_by_address, if_pos hx] at h
      cases h
      exact ⟨List.mem_cons_self _ _, hx⟩
    · rw [find_block_by_address, if_neg hx] at h
      exact ⟨List.mem_cons_of_mem x (ih h).1, (ih h).2⟩

theorem find_block_by_address_eq_none {l : List block_t} {a : Nat}
    (h : ∀ b ∈ l, b.address ≠ a) : find_block_by_address l a = none := by
  induction l with
  | nil => rfl
  | cons x rest ih =>
    rw [find_block_by_address, if_neg (h x (List.mem_cons_self x rest))]
    exact ih fun b hb => h b (List.mem_cons_of_mem x hb)

theorem find_module_by_name_some {l : List module_t} {n : String}
    {m : module_t} (h : find_module_by_name l n = some m) :
    m ∈ l ∧ m.name = n := by
  induction l with
  | nil => simp [find_module_by_name] at h
  | cons x rest ih =>
    by_cases hx : x.name = n
    · rw [find_module_by_name, if_pos hx] at h
      cases h
      exact ⟨List.mem_cons_self _ _, hx⟩
    · rw [find_module_by_name, if_neg hx] at h
      exact ⟨List.mem_cons_of_mem x (ih h).1, (ih h).2⟩

theorem release_memory_of_module_eq (maddr : Nat) (used free : List block_t) :
    release_memory_of_module maddr used free =
      (used.filter (fun b => b.owner != some maddr),
        (used.filter (fun b => b.owner == some maddr)).reverse ++ free) := by
  induction used generalizing free with
  | nil => simp [release_memory_of_module]
  | cons b rest ih =>
    by_cases h : b.owner = some maddr <;>
      simp [release_memory_of_module, h, ih, add_block]

/-! ### Facts about splitting and merging -/

theorem split_block_eq_some {al : Nat} {b : block_t} {sz : Nat}
    (h1 : ¬ b.size < sz + sizeof_block_t + 1)
    (h2 : ¬ b.size < align_size sz al + sizeof_block_t + 1) :
    split_block al b sz =
      some ({ b with size := align_size sz al },
        { self := b.address + align_size sz al
          address := b.address + align_size sz al + sizeof_block_t
          size := b.size - align_size sz al - sizeof_block_t
          owner := b.owner }) := by
  unfold split_block
  rw [if_neg h1, if_neg h2]

theorem split_block_blockOk {al : Nat} {b b₁ b₂ : block_t} {sz : Nat}
    (h : split_block al b sz = some (b₁, b₂)) (hb : BlockOk b) :
    BlockOk b₁ ∧ BlockOk b₂ := by
  by_cases h1 : b.size < sz + sizeof_block_t + 1
  · unfold split_block at h
    rw [if_pos h1] at h
    cases h
  · by_cases h2 : b.size < align_size sz al + sizeof_block_t + 1
    · unfold split_block at h
      rw [if_neg h1] at h
      dsimp only at h
      rw [if_pos h2] at h
      cases h
    · rw [split_block_eq_some h1 h2] at h
      cases h
      exact ⟨hb, rfl⟩

theorem merge_blocks_blockOk {f s m : block_t} (h : merge_blocks f s = some m)
    (hf : BlockOk f) : BlockOk m := by
  unfold merge_blocks at h
  split at h
  · exact absurd h (by simp)
  · cases h
    exact hf

theorem free_merge_pass_blockOk {b : block_t} {l : List block_t}
    {b' : block_t} {l' : List block_t} (h : free_merge_pass b l = some (b', l'))
    (hb : BlockOk b) (hl : ∀ x ∈ l, BlockOk x) :
    BlockOk b' ∧ ∀ x ∈ l', BlockOk x := by
  induction l generalizing b b' l' with
  | nil =>
    unfold free_merge_pass at h
    cases h
    exact ⟨hb, by simp⟩
  | cons x rest ih =>
    have hx : BlockOk x := hl x (List.mem_cons_self _ _)
    have hrest : ∀ y ∈ rest, BlockOk y := fun y hy =>
      hl y (List.mem_cons_of_mem _ hy)
    unfold free_merge_pass at h
    by_cases hself : x.self = b.self
    · rw [if_pos hself] at h
      cases hfmp : free_merge_pass b rest with
      | none => rw [hfmp] at h; simp at h
      | some p =>
        rw [hfmp] at h
        simp only [Option.map_some'] at h
        cases h
        obtain ⟨h1, h2⟩ := ih hfmp hb hrest
        refine ⟨h1, fun y hy => ?_⟩
        rcases List.mem_cons.mp hy with rfl | hy'
        · exact hx
        · exact h2 y hy'
    · rw [if_neg hself] at h
      cases hm : merge_blocks b x with
      | some merged =>
        rw [hm] at h
        exact ih h (merge_blocks_blockOk hm hb) hrest
      | none =>
        rw [hm] at h
        cases hm' : merge_blocks x b with
        | some m2 => rw [hm'] at h; simp at h
        | none =>
          rw [hm'] at h
          cases hfmp : free_merge_pass b rest with
          | none => rw [hfmp] at h; simp at h
          | some p =>
            rw [hfmp] at h
            simp only [Option.map_some'] at h
            cases h
            obtain ⟨h1, h2⟩ := ih hfmp hb hrest
            refine ⟨h1, fun y hy => ?_⟩
            rcases List.mem_cons.mp hy with rfl | hy'
            · exact hx
            · exact h2 y hy'

theorem concat_inner_blockOk {current : block_t} {kept rest : List block_t}
    (hc : BlockOk current) (hk : ∀ x ∈ kept, BlockOk x)
    (hr : ∀ x ∈ rest, BlockOk x) :
    BlockOk (concat_inner current kept rest).1 ∧
      ∀ x ∈ (concat_inner current kept rest).2, BlockOk x := by
  induction rest generalizing current kept with
  | nil =>
    refine ⟨hc, fun x hx => ?_⟩
    unfold concat_inner at hx
    exact hk x (by simpa using hx)
  | cons y ys ih =>
    have hy : BlockOk y := hr y (List.mem_cons_self _ _)
    have hys : ∀ x ∈ ys, BlockOk x := fun x hx => hr x (List.mem_cons_of_mem _ hx)
    unfold concat_inner
    cases hm : merge_blocks current y with
    | some merged =>
      exact ih (merge_blocks_blockOk hm hc) (fun x hx => absurd hx (List.not_mem_nil x)) hys
    | none =>
      refine ih hc (fun x hx => ?_) hys
      rcases List.mem_cons.mp hx with rfl | hx'
      · exact hy
      · exact hk x hx'

theorem concat_outer_go_blockOk {fuel : Nat} {l : List block_t}
    (hl : ∀ x ∈ l, BlockOk x) : ∀ x ∈ concat_outer_go fuel l, BlockOk x := by
  induction fuel generalizing l with
  | zero => simpa [concat_outer_go] using hl
  | succ fuel ih =>
    cases l with
    | nil => simp [concat_outer_go]
    | cons c rest =>
      have hc : BlockOk c := hl c (List.mem_cons_self _ _)
      have hrest : ∀ x ∈ rest, BlockOk x := fun x hx =>
        hl x (List.mem_cons_of_mem _ hx)
      obtain ⟨h1, h2⟩ := concat_inner_blockOk hc (fun x hx => absurd hx (List.not_mem_nil x)) hrest
      intro x hx
      unfold concat_outer_go at hx
      rcases List.mem_cons.mp hx with rfl | hx'
      · exact h1
      · exact ih h2 x hx'

/-! ### Preservation of the header-placement invariant by every operation -/

theorem create_module_inv {s : context_t} (name : String)
    (h : context_inv s) : context_inv (create_module s name).2 := by
  unfold create_module
  cases hfind : find_suitable_block s.free_list sizeof_module_t s.alignment with
  | none => exact h
  | some blk =>
    have hblk : BlockOk blk := h.1 _ (find_suitable_block_spec hfind).1
    have hfree : ∀ x ∈ remove_block s.free_list blk.self, BlockOk x :=
      fun x hx => h.1 x (mem_of_mem_remove_block hx)
    dsimp only
    by_cases hcond : blk.size > sizeof_module_t + sizeof_block_t + s.alignment
    · rw [if_pos hcond]
      cases hsp : split_block s.alignment blk sizeof_module_t with
      | none =>
        simp only [hsp]
        refine ⟨hfree, fun b hb => ?_⟩
        rcases List.mem_cons.mp hb with rfl | hb'
        · exact hblk
        · exact h.2 b hb'
      | some p =>
        obtain ⟨b₁, b₂⟩ := p
        obtain ⟨hb₁, hb₂⟩ := split_block_blockOk hsp hblk
        simp only [hsp]
        refine ⟨fun x hx => ?_, fun b hb => ?_⟩
        · rcases List.mem_cons.mp hx with rfl | hx'
          · exact hb₂
          · exact hfree x hx'
        · rcases List.mem_cons.mp hb with rfl | hb'
          · exact hb₁
          · exact h.2 b hb'
    · rw [if_neg hcond]
      refine ⟨hfree, fun b hb => ?_⟩
      rcases List.mem_cons.mp hb with rfl | hb'
      · exact hblk
      · exact h.2 b hb'

theorem get_or_create_module_inv {s : context_t} (name : String)
    (h : context_inv s) : context_inv (get_or_create_module s name).2 := by
  unfold get_or_create_module
  cases find_module_by_name s.module_list name with
  | none => exact create_module_inv name h
  | some m => exact h

theorem aa_handle_padding_inv {s : context_t} {al as ret : Nat}
    {b b' : block_t} {st : context_t}
    (h : aa_handle_padding s al as b = some (ret, b', st))
    (hb : BlockOk b) (hf : ∀ x ∈ s.free_list, BlockOk x) :
    BlockOk b' ∧ (∀ x ∈ st.free_list, BlockOk x) ∧
      st.used_list = s.used_list ∧ st.alignment = s.alignment ∧
      st.module_list = s.module_list := by
  unfold aa_handle_padding at h
  dsimp only at h
  by_cases h0 : align_pointer b.address al - b.address = 0
  · rw [if_pos h0] at h
    cases h
    exact ⟨hb, hf, rfl, rfl, rfl⟩
  · rw [if_neg h0] at h
    by_cases h1 : align_pointer b.address al - b.address ≥ sizeof_block_t
    · rw [if_pos h1] at h
      cases hsp : split_block s.alignment b
          (align_pointer b.address al - b.address - sizeof_block_t) with
      | none => rw [hsp] at h; cases h
      | some p =>
        obtain ⟨front, usable⟩ := p
        rw [hsp] at h
        cases h
        obtain ⟨hfr, hus⟩ := split_block_blockOk hsp hb
        refine ⟨hus, fun x hx => ?_, rfl, rfl, rfl⟩
        rcases List.mem_cons.mp hx with rfl | hx'
        · exact hfr
        · exact hf x hx'
    · rw [if_neg h1] at h
      by_cases h2 : align_pointer (b.address + sizeof_block_t) al - b.address ≥
            sizeof_block_t ∧
          b.size ≥ align_pointer (b.address + sizeof_block_t) al - b.address -
            sizeof_block_t + as
      · rw [if_pos h2] at h
        cases hsp : split_block s.alignment b
            (align_pointer (b.address + sizeof_block_t) al - b.address -
              sizeof_block_t) with
        | none => rw [hsp] at h; cases h
        | some p =>
          obtain ⟨front, usable⟩ := p
          rw [hsp] at h
          cases h
          obtain ⟨hfr, hus⟩ := split_block_blockOk hsp hb
          refine ⟨hus, fun x hx => ?_, rfl, rfl, rfl⟩
          rcases List.mem_cons.mp hx with rfl | hx'
          · exact hfr
          · exact hf x hx'
      · rw [if_neg h2] at h
        cases h

theorem aa_finish_inv {s : context_t} {as : Nat} {mn : Option String}
    {ret : Nat} {b : block_t} (hb : BlockOk b)
    (hf : ∀ x ∈ s.free_list, BlockOk x) (hu : ∀ x ∈ s.used_list, BlockOk x) :
    context_inv (aa_finish s as mn ret b).2 := by
  have tail : ∀ (b' : block_t) (st : context_t), BlockOk b' → context_inv st →
      context_inv
        ((match (motive := Option module_t × context_t →
            Option Nat × context_t)
          (match mn with
            | none => ((none : Option module_t), st)
            | some name => get_or_create_module st name) with
          | (module?, s₄) =>
            ((some ret : Option Nat),
              { s₄ with
                used_list := add_block s₄.used_list
                  { b' with owner := module?.map module_t.self } }))).2 := by
    intro b' st hb' hst
    rcases hg : (match mn with
        | none => ((none : Option module_t), st)
        | some name => get_or_create_module st name) with ⟨mo, s₄⟩
    rw [hg]
    have hs₄ : context_inv s₄ := by
      cases mn with
      | none => cases hg; exact hst
      | some name =>
        dsimp only at hg
        have hone := get_or_create_module_inv name hst
        rw [hg] at hone
        exact hone
    refine ⟨hs₄.1, fun x hx => ?_⟩
    rcases List.mem_cons.mp hx with rfl | hx'
    · exact hb'
    · exact hs₄.2 x hx'
  unfold aa_finish
  by_cases hcond : b.size > as + sizeof_block_t + 1
  · rw [if_pos hcond]
    cases hsp : split_block s.alignment b as with
    | none =>
      dsimp only
      exact tail b s hb ⟨hf, hu⟩
    | some p =>
      obtain ⟨shrunk, new_block⟩ := p
      obtain ⟨hsh, hnb⟩ := split_block_blockOk hsp hb
      dsimp only
      refine tail shrunk _ hsh ⟨fun x hx => ?_, hu⟩
      rcases List.mem_cons.mp hx with rfl | hx'
      · exact hnb
      · exact hf x hx'
  · rw [if_neg hcond]
    dsimp only
    exact tail b s hb ⟨hf, hu⟩

theorem dmheap_aligned_alloc_inv {s : context_t} (alignment size : Nat)
    (module_name : Option String) (h : context_inv s) :
    context_inv (dmheap_aligned_alloc s alignment size module_name).2 := by
  unfold dmheap_aligned_alloc
  dsimp only
  cases hfind : find_suitable_block s.free_list (align_size size alignment)
      alignment with
  | none => exact h
  | some blk =>
    dsimp only
    have hblk : BlockOk blk := h.1 _ (find_suitable_block_spec hfind).1
    have hfree : ∀ x ∈ remove_block s.free_list blk.self, BlockOk x :=
      fun x hx => h.1 x (mem_of_mem_remove_block hx)
    cases hpad : aa_handle_padding
        { s with free_list := remove_block s.free_list blk.self } alignment
        (align_size size alignment) blk with
    | none =>
      dsimp only
      refine ⟨fun x hx => ?_, h.2⟩
      rcases List.mem_cons.mp hx with rfl | hx'
      · exact hblk
      · exact hfree x hx'
    | some p =>
      obtain ⟨ret, b', st⟩ := p
      obtain ⟨hb', hstf, hstu, hal, hml⟩ := aa_handle_padding_inv hpad hblk hfree
      exact aa_finish_inv hb' hstf (by rw [hstu]; exact h.2)

theorem dmheap_malloc_inv {s : context_t} (size : Nat)
    (module_name : Option String) (h : context_inv s) :
    context_inv (dmheap_malloc s size module_name).2 :=
  dmheap_aligned_alloc_inv s.alignment size module_name h

theorem dmheap_init_inv {buffer size alignment : Nat} {s : context_t}
    (h : dmheap_init buffer size alignment = some s) : context_inv s := by
  unfold dmheap_init at h
  split at h
  · cases h
  · cases h
    refine ⟨fun b hb => ?_, fun b hb => by simp at hb⟩
    simp only [List.mem_singleton] at hb
    subst hb
    rfl

theorem dmheap_free_inv {s s' : context_t} {ptr : Nat} {concatenate : Bool}
    (h : dmheap_free s ptr concatenate = some s') (hinv : context_inv s) :
    context_inv s' := by
  unfold dmheap_free at h
  by_cases hp : ptr = 0
  · rw [if_pos hp] at h
    cases h
    exact hinv
  · rw [if_neg hp] at h
    cases hfind : find_block_by_address s.used_list ptr with
    | none =>
      rw [hfind] at h
      cases h
      exact hinv
    | some b =>
      rw [hfind] at h
      have hb : BlockOk b := hinv.2 _ (find_block_by_address_some hfind).1
      have hused : ∀ x ∈ remove_block s.used_list b.self, BlockOk x :=
        fun x hx => hinv.2 x (mem_of_mem_remove_block hx)
      cases concatenate with
      | false =>
        simp only [Bool.false_eq_true, if_false] at h
        cases h
        refine ⟨fun x hx => ?_, hused⟩
        rcases List.mem_cons.mp hx with rfl | hx'
        · exact hb
        · exact hinv.1 x hx'
      | true =>
        simp only [if_true] at h
        cases hmp : free_merge_pass b s.free_list with
        | none => rw [hmp] at h; cases h
        | some p =>
          obtain ⟨b', rest'⟩ := p
          rw [hmp] at h
          cases h
          obtain ⟨hb', hrest'⟩ := free_merge_pass_blockOk hmp hb hinv.1
          refine ⟨fun x hx => ?_, hused⟩
          rcases List.mem_cons.mp hx with rfl | hx'
          · exact hb'
          · exact hrest' x hx'

theorem dmheap_realloc_inv {s : context_t} (ptr size : Nat)
    (module_name : Option String) (h : context_inv s) :
    context_inv (dmheap_realloc s ptr size module_name).2 := by
  unfold dmheap_realloc
  by_cases hp : ptr = 0
  · rw [if_pos hp]
    exact dmheap_aligned_alloc_inv s.alignment size module_name h
  · rw [if_neg hp]
    cases hfind : find_block_by_address s.used_list ptr with
    | none => exact h
    | some b =>
      dsimp only
      have hb : BlockOk b := h.2 _ (find_block_by_address_some hfind).1
      have hused : ∀ x ∈ remove_block s.used_list b.self, BlockOk x :=
        fun x hx => h.2 x (mem_of_mem_remove_block hx)
      by_cases hlt : size < b.size
      · rw [if_pos hlt]
        cases hsp : split_block s.alignment b size with
        | none =>
          dsimp only
          refine ⟨h.1, fun x hx => ?_⟩
          rcases List.mem_cons.mp hx with rfl | hx'
          · exact hb
          · exact hused x hx'
        | some p =>
          obtain ⟨shrunk, new_block⟩ := p
          obtain ⟨hsh, hnb⟩ := split_block_blockOk hsp hb
          dsimp only
          refine ⟨fun x hx => ?_, fun x hx => ?_⟩
          · rcases List.mem_cons.mp hx with rfl | hx'
            · exact hnb
            · exact h.1 x hx'
          · rcases List.mem_cons.mp hx with rfl | hx'
            · exact hsh
            · exact hused x hx'
      · rw [if_neg hlt]
        by_cases hgt : size > b.size
        · rw [if_pos hgt]
          have hs' := dmheap_aligned_alloc_inv s.alignment size module_name h
          cases haa : dmheap_aligned_alloc s s.alignment size module_name with
          | mk r s' =>
            rw [haa] at hs'
            cases r with
            | none => exact hs'
            | some new_ptr =>
              dsimp only
              refine ⟨fun x hx => ?_, fun x hx => ?_⟩
              · rcases List.mem_cons.mp hx with rfl | hx'
                · exact hb
                · exact hs'.1 x hx'
              · exact hs'.2 x (mem_of_mem_remove_block hx)
        · rw [if_neg hgt]
          exact h

theorem delete_module_inv {s : context_t} (module : module_t)
    (h : context_inv s) : context_inv (delete_module s module) := by
  unfold delete_module
  rw [release_memory_of_module_eq]
  dsimp only
  have hused₁ : ∀ x ∈ s.used_list.filter (fun b => b.owner != some module.self),
      BlockOk x := fun x hx => h.2 x (List.mem_of_mem_filter hx)
  have hfree₁ : ∀ x ∈
      (s.used_list.filter (fun b => b.owner == some module.self)).reverse ++
        s.free_list, BlockOk x := by
    intro x hx
    rcases List.mem_append.mp hx with hx' | hx'
    · exact h.2 x (List.mem_of_mem_filter (List.mem_reverse.mp hx'))
    · exact h.1 x hx'
  cases hfind : find_block_by_address
      (s.used_list.filter (fun b => b.owner != some module.self))
      module.self with
  | none => exact ⟨hfree₁, hused₁⟩
  | some blk =>
    have hblk : BlockOk blk := hused₁ _ (find_block_by_address_some hfind).1
    refine ⟨fun x hx => ?_, fun x hx => hused₁ x (mem_of_mem_remove_block hx)⟩
    rcases List.mem_cons.mp hx with rfl | hx'
    · exact hblk
    · exact hfree₁ x hx'

theorem dmheap_unregister_module_inv {s : context_t} (name : String)
    (h : context_inv s) : context_inv (dmheap_unregister_module s name) := by
  unfold dmheap_unregister_module
  cases find_module_by_name s.module_list name with
  | none => exact h
  | some m => exact delete_module_inv m h

theorem dmheap_register_module_inv {s : context_t} (name : String)
    (h : context_inv s) : context_inv (dmheap_register_module s name).2 := by
  unfold dmheap_register_module
  cases find_module_by_name s.module_list name with
  | some m => exact h
  | none =>
    have hc := create_module_inv name h
    cases hcm : create_module s name with
    | mk mo s' =>
      rw [hcm] at hc
      cases mo <;> exact hc

theorem dmheap_concatenate_free_blocks_inv {s : context_t}
    (h : context_inv s) : context_inv (dmheap_concatenate_free_blocks s) :=
  ⟨concat_outer_go_blockOk h.1, h.2⟩

theorem reachable_context_inv {s : context_t} (h : Reachable s) :
    context_inv s := by
  induction h with
  | init buffer size alignment s h => exact dmheap_init_inv h
  | malloc s size module_name h ih => exact dmheap_malloc_inv size module_name ih
  | aligned_alloc s alignment size module_name h ih =>
    exact dmheap_aligned_alloc_inv alignment size module_name ih
  | realloc s ptr size module_name h ih =>
    exact dmheap_realloc_inv ptr size module_name ih
  | free s ptr concatenate s' h h' ih => exact dmheap_free_inv h' ih
  | concatenate_free_blocks s h ih =>
    exact dmheap_concatenate_free_blocks_inv ih
  | register_module s name h ih => exact dmheap_register_module_inv name ih
  | unregister_module s name h ih => exact dmheap_unregister_module_inv name ih

theorem find_block_by_address_none {l : List block_t} {a : Nat}
    (h : find_block_by_address l a = none) : ∀ b ∈ l, b.address ≠ a := by
  induction l with
  | nil => simp
  | cons x rest ih =>
    by_cases hx : x.address = a
    · rw [find_block_by_address, if_pos hx] at h
      cases h
    · rw [find_block_by_address, if_neg hx] at h
      intro b hb
      rcases List.mem_cons.mp hb with rfl | hb'
      · exact hx
      · exact ih h b hb'

theorem split_block_some_shape {al : Nat} {b b₁ b₂ : block_t} {sz : Nat}
    (h : split_block al b sz = some (b₁, b₂)) :
    b₁ = { b with size := align_size sz al } ∧
      b₂ = { self := b.address + align_size sz al
             address := b.address + align_size sz al + sizeof_block_t
             size := b.size - align_size sz al - sizeof_block_t
             owner := b.owner } := by
  by_cases h1 : b.size < sz + sizeof_block_t + 1
  · unfold split_block at h
    rw [if_pos h1] at h
    cases h
  · by_cases h2 : b.size < align_size sz al + sizeof_block_t + 1
    · unfold split_block at h
      rw [if_neg h1] at h
      dsimp only at h
      rw [if_pos h2] at h
      cases h
    · rw [split_block_eq_some h1 h2] at h
      cases h
      exact ⟨rfl, rfl⟩

theorem aa_finish_spec (st : context_t) (as : Nat) (mn : Option String)
    (ret : Nat) (blk : block_t) :
    (aa_finish st as mn ret blk).1 = some ret ∧
      (aa_finish st as mn ret blk).2.used_list.head?.map block_t.address =
        some blk.address := by
  have tail : ∀ (b' : block_t) (st' : context_t), b'.address = blk.address →
      ((match (motive := Option module_t × context_t →
          Option Nat × context_t)
        (match mn with
          | none => ((none : Option module_t), st')
          | some name => get_or_create_module st' name) with
        | (module?, s₄) =>
          ((some ret : Option Nat),
            { s₄ with
              used_list := add_block s₄.used_list
                { b' with owner := module?.map module_t.self } }))).1 = some ret ∧
      ((match (motive := Option module_t × context_t →
          Option Nat × context_t)
        (match mn with
          | none => ((none : Option module_t), st')
          | some name => get_or_create_module st' name) with
        | (module?, s₄) =>
          ((some ret : Option Nat),
            { s₄ with
              used_list := add_block s₄.used_list
                { b' with owner := module?.map module_t.self } }))).2.used_list.head?.map
          block_t.address = some blk.address := by
    intro b' st' hb'
    rcases hg : (match mn with
        | none => ((none : Option module_t), st')
        | some name => get_or_create_module st' name) with ⟨mo, s₄⟩
    rw [hg]
    exact ⟨rfl, by simp [add_block, hb']⟩
  unfold aa_finish
  by_cases hcond : blk.size > as + sizeof_block_t + 1
  · rw [if_pos hcond]
    cases hsp : split_block st.alignment blk as with
    | none =>
      dsimp only
      exact tail blk st rfl
    | some p =>
      obtain ⟨shrunk, new_block⟩ := p
      obtain ⟨hsh, hnb⟩ := split_block_some_shape hsp
      dsimp only
      exact tail shrunk _ (by rw [hsh])
  · rw [if_neg hcond]
    dsimp only
    exact tail blk st rfl

theorem aa_handle_padding_big_pad {s : context_t} {al as : Nat} {b : block_t}
    (h0 : ¬ align_pointer b.address al - b.address = 0)
    (h1 : align_pointer b.address al - b.address ≥ sizeof_block_t)
    {b₁ b₂ : block_t}
    (hsp : split_block s.alignment b
      (align_pointer b.address al - b.address - sizeof_block_t) =
        some (b₁, b₂)) :
    aa_handle_padding s al as b =
      some (align_pointer b.address al, b₂,
        { s with free_list := add_block s.free_list b₁ }) := by
  unfold aa_handle_padding
  dsimp only
  rw [if_neg h0, if_pos h1, hsp]

theorem aa_handle_padding_ret_dvd {s : context_t} {k j as ret : Nat}
    {b b' : block_t} {st : context_t}
    (hal : s.alignment = 2 ^ j) (hj : j ≤ 5) (hk : k ≤ 63)
    (hdvdb : 2 ^ j ∣ b.address) (hbound : b.address + 2 ^ k + 96 ≤ 2 ^ 64)
    (h : aa_handle_padding s (2 ^ k) as b = some (ret, b', st)) :
    2 ^ k ∣ ret := by
  have hk64 : k ≤ 64 := by omega
  have h32 : sizeof_block_t = 32 := rfl
  have hb1 : b.address + 2 ^ k ≤ 2 ^ 64 := by omega
  have hb2 : b.address + sizeof_block_t + 2 ^ k ≤ 2 ^ 64 := by omega
  unfold aa_handle_padding at h
  dsimp only at h
  by_cases h0 : align_pointer b.address (2 ^ k) - b.address = 0
  · rw [if_pos h0] at h
    cases h
    exact align_pointer_dvd hk64 hb1
  · rw [if_neg h0] at h
    by_cases h1 : align_pointer b.address (2 ^ k) - b.address ≥ sizeof_block_t
    · rw [if_pos h1] at h
      cases hsp : split_block s.alignment b
          (align_pointer b.address (2 ^ k) - b.address - sizeof_block_t) with
      | none => rw [hsp] at h; cases h
      | some p =>
        obtain ⟨front, usable⟩ := p
        rw [hsp] at h
        cases h
        exact align_pointer_dvd hk64 hb1
    · rw [if_neg h1] at h
      have hjk : j ≤ k := by
        by_contra hcon
        push_neg at hcon
        have hdk : (2 : Nat) ^ k ∣ b.address :=
          dvd_trans (pow_dvd_pow 2 (Nat.le_of_lt hcon)) hdvdb
        exact h0 (by rw [align_pointer_eq_of_dvd hk64 hb1 hdk]; omega)
      by_cases h2 : align_pointer (b.address + sizeof_block_t) (2 ^ k) -
            b.address ≥ sizeof_block_t ∧
          b.size ≥ align_pointer (b.address + sizeof_block_t) (2 ^ k) -
            b.address - sizeof_block_t + as
      · rw [if_pos h2] at h
        cases hsp : split_block s.alignment b
            (align_pointer (b.address + sizeof_block_t) (2 ^ k) - b.address -
              sizeof_block_t) with
        | none => rw [hsp] at h; cases h
        | some p =>
          obtain ⟨front, usable⟩ := p
          rw [hsp] at h
          cases h
          obtain ⟨hfr, hus⟩ := split_block_some_shape hsp
          have hnp_ge : align_pointer (b.address + sizeof_block_t) (2 ^ k) -
              b.address ≥ sizeof_block_t := h2.1
          have hnp_le : b.address + sizeof_block_t ≤
              align_pointer (b.address + sizeof_block_t) (2 ^ k) :=
            le_align_pointer hk64 (by omega)
          have hnp_lt : align_pointer (b.address + sizeof_block_t) (2 ^ k) <
              b.address + sizeof_block_t + 2 ^ k :=
            align_pointer_lt hk64 (by omega)
          have hdvd_np : (2 : Nat) ^ j ∣
              align_pointer (b.address + sizeof_block_t) (2 ^ k) - b.address :=
            Nat.dvd_sub' (dvd_align_pointer hjk hk64 (by omega)) hdvdb
          have h2j32 : (2 : Nat) ^ j ∣ sizeof_block_t := by
            have hd := pow_dvd_pow 2 hj
            rw [h32]
            simpa [show (2 : Nat) ^ 5 = 32 by norm_num] using hd
          have h2jle : (2 : Nat) ^ j ≤ 32 := by
            have := Nat.pow_le_pow_right (by omega : 1 ≤ 2) hj
            simpa [show (2 : Nat) ^ 5 = 32 by norm_num] using this
          have hA63 : (2 : Nat) ^ k ≤ 2 ^ 63 :=
            Nat.pow_le_pow_right (by omega) hk
          have hcollapse : align_size
              (align_pointer (b.address + sizeof_block_t) (2 ^ k) - b.address -
                sizeof_block_t) s.alignment =
              align_pointer (b.address + sizeof_block_t) (2 ^ k) - b.address -
                sizeof_block_t := by
            rw [hal]
            exact align_size_eq_of_dvd (by omega) (by omega)
              (Nat.dvd_sub' hdvd_np h2j32)
          have husaddr : b'.address =
              align_pointer (b.address + sizeof_block_t) (2 ^ k) := by
            rw [hus]
            dsimp only
            rw [hcollapse]
            omega
          rw [husaddr]
          exact align_pointer_dvd hk64 (by omega)
      · rw [if_neg h2] at h
        cases h

theorem dmheap_aligned_alloc_dvd {s : context_t} {k j size : Nat}
    {m : Option String}
    (hal : s.alignment = 2 ^ j) (hj : j ≤ 5) (hk : k ≤ 63)
    (hfree : ∀ b ∈ s.free_list,
      2 ^ j ∣ b.address ∧ b.address + 2 ^ k + 96 ≤ 2 ^ 64) :
    ∀ r, (dmheap_aligned_alloc s (2 ^ k) size m).1 = some r → 2 ^ k ∣ r := by
  intro r hr
  unfold dmheap_aligned_alloc at hr
  dsimp only at hr
  cases hfind : find_suitable_block s.free_list (align_size size (2 ^ k))
      (2 ^ k) with
  | none => rw [hfind] at hr; cases hr
  | some b =>
    rw [hfind] at hr
    dsimp only at hr
    obtain ⟨hdvdb, hbound⟩ := hfree b (find_suitable_block_spec hfind).1
    cases hpad : aa_handle_padding
        { s with free_list := remove_block s.free_list b.self } (2 ^ k)
        (align_size size (2 ^ k)) b with
    | none => rw [hpad] at hr; cases hr
    | some p =>
      obtain ⟨ret, b₂, st⟩ := p
      rw [hpad] at hr
      dsimp only at hr
      rw [(aa_finish_spec st (align_size size (2 ^ k)) m ret b₂).1] at hr
      cases hr
      exact aa_handle_padding_ret_dvd
        (s := { s with free_list := remove_block s.free_list b.self }) hal hj hk
        hdvdb hbound hpad

/-! ### The claims -/

/-- C3: the spec says two blocks merge iff they are byte-adjacent
(`address_of(second) = first.payload_base + first.payload_size`).  The code's
`merge_blocks` instead demands `first->address + first->size + sizeof(block_t)
== second`, so the byte-adjacent pair below (the second header starts exactly
at `32 + 64 = 96`, the layout `split_block` produces) is NOT merged, while a
pair separated by a header-sized gap (second header at `128`) is merged.
This contradicts the function's own documentation ("merge two adjacent
memory blocks") and disables coalescing entirely. -/
theorem merge_blocks_adjacency_bug :
    merge_blocks { self := 0, address := 32, size := 64, owner := none }
        { self := 96, address := 128, size := 100, owner := none } = none ∧
      (32 : Nat) + 64 = 96 ∧
      merge_blocks { self := 0, address := 32, size := 64, owner := none }
        { self := 128, address := 160, size := 100, owner := none } =
        some { self := 0, address := 32, size := 196, owner := none } := by
  decide

/-- C4: the round-trip law fails on the code.  Starting from
`init(buffer = 64, size = 4096, alignment = 8)`, `malloc(64, NULL)` returns
pointer `96`; after `free(96, false)` and `concatenate_free_blocks` the free
list still holds two blocks of payload sizes `64` and `3968` (which jointly
cover the region: `32 + 64 + 32 + 3968 = 4096`) instead of the single block
of payload size `4064` the claim requires, because `merge_blocks` never
accepts byte-adjacent blocks. -/
theorem free_then_concatenate_round_trip_bug :
    (let s₀ : context_t :=
      { heap_start := 64
        heap_size := 4096
        free_list := [{ self := 64, address := 96, size := 4064, owner := none }]
        used_list := []
        alignment := 8
        module_list := [] }
    dmheap_init 64 4096 8 = some s₀ ∧
      (dmheap_malloc s₀ 64 none).1 = some 96 ∧
      (dmheap_free (dmheap_malloc s₀ 64 none).2 96 false).map (fun s₂ =>
        (dmheap_concatenate_free_blocks s₂).free_list.map block_t.size) =
        some [64, 3968] ∧
      sizeof_block_t + 64 + sizeof_block_t + 3968 = 4096) := by
  decide

/-- C7 is refuted: `dmheap_aligned_alloc` rounds the requested size up to a
multiple of the REQUESTED alignment, not the context's default alignment.
With default alignment `8`, a request of `8` bytes at alignment `64` fails on
a 100-byte free block, although the search the claim describes (size rounded
to the default alignment, i.e. `8`) would accept that block. -/
theorem find_fit_search_size_counterexample :
    (let s : context_t :=
      { heap_start := 0
        heap_size := 132
        free_list := [{ self := 0, address := 32, size := 100, owner := none }]
        used_list := []
        alignment := 8
        module_list := [] }
    align_size 8 64 ≠ align_size 8 s.alignment ∧
      dmheap_aligned_alloc s 64 8 none = (none, s) ∧
      find_suitable_block s.free_list (align_size 8 s.alignment) 64 =
        some { self := 0, address := 32, size := 100, owner := none }) := by
  decide

/-- C7 (amended): the find-fit search over the free list uses the requested
size rounded up to a multiple of the requested alignment
(`align_size size alignment`); for `malloc` the requested alignment is the
context's default alignment, so only there does the claim's description
hold. -/
theorem find_fit_search_uses_requested_alignment :
    ∀ (s : context_t) (alignment size : Nat) (m : Option String),
      (find_suitable_block s.free_list (align_size size alignment) alignment =
          none →
        dmheap_aligned_alloc s alignment size m = (none, s)) ∧
      (∀ r s', dmheap_aligned_alloc s alignment size m = (some r, s') →
        ∃ b, find_suitable_block s.free_list (align_size size alignment)
          alignment = some b) ∧
      dmheap_malloc s size m = dmheap_aligned_alloc s s.alignment size m := by
  intro s alignment size m
  refine ⟨fun hnone => ?_, fun r s' h => ?_, rfl⟩
  · unfold dmheap_aligned_alloc
    dsimp only
    rw [hnone]
  · cases hfind : find_suitable_block s.free_list (align_size size alignment)
        alignment with
    | none =>
      unfold dmheap_aligned_alloc at h
      dsimp only at h
      rw [hfind] at h
      cases h
    | some b => exact ⟨b, rfl⟩

/-- Witness for the amended C7 theorem at a concrete input: on the state of
the counterexample the search with the requested alignment finds nothing, so
the allocation fails. -/
theorem find_fit_search_uses_requested_alignment_witness :
    (let s : context_t :=
      { heap_start := 0
        heap_size := 132
        free_list := [{ self := 0, address := 32, size := 100, owner := none }]
        used_list := []
        alignment := 8
        module_list := [] }
    dmheap_aligned_alloc s 64 8 none = (none, s)) := by
  exact (find_fit_search_uses_requested_alignment _ 64 8 none).1 (by decide)

/-- C8: a non-null pointer that is not the payload base of any used block
makes `dmheap_free` return with the state unchanged and makes
`dmheap_realloc` return null with the state unchanged, and `free(NULL, c)`
is a no-op. -/
theorem unknown_pointer_handling :
    ∀ (s : context_t) (p size : Nat) (c : Bool) (m : Option String),
      p ≠ 0 → find_block_by_address s.used_list p = none →
      dmheap_free s p c = some s ∧ dmheap_realloc s p size m = (none, s) ∧
        ∀ c' : Bool, dmheap_free s 0 c' = some s := by
  intro s p size c m hp hfind
  refine ⟨?_, ?_, fun c' => ?_⟩
  · unfold dmheap_free
    rw [if_neg hp, hfind]
  · unfold dmheap_realloc
    rw [if_neg hp, hfind]
  · unfold dmheap_free
    rw [if_pos rfl]

/-- Witness for C8 at a concrete state: pointer `7` was never allocated. -/
theorem unknown_pointer_handling_witness :
    (let s : context_t :=
      { heap_start := 64
        heap_size := 4096
        free_list := [{ self := 160, address := 192, size := 3968, owner := none }]
        used_list := [{ self := 64, address := 96, size := 64, owner := none }]
        alignment := 8
        module_list := [] }
    dmheap_free s 7 true = some s ∧ dmheap_realloc s 7 16 none = (none, s) ∧
      dmheap_free s 0 false = some s) := by
  refine ⟨?_, ?_, ?_⟩
  · exact (unknown_pointer_handling _ 7 16 true none (by decide) (by decide)).1
  · exact (unknown_pointer_handling _ 7 16 true none (by decide) (by decide)).2.1
  · exact (unknown_pointer_handling _ 7 16 true none (by decide)
      (by decide)).2.2 false

/-- C9 is refuted: neither `dmheap_init` nor `dmheap_aligned_alloc` checks
that the alignment is a power of two.  `init` with alignment `3` succeeds,
and an allocation with alignment `3` returns a non-null pointer. -/
theorem alignment_validation_counterexample :
    is_pow2 3 = false ∧
      (dmheap_init 64 4096 3).isSome = true ∧
      (dmheap_init 64 4096 3).map (fun s =>
        (dmheap_aligned_alloc s 3 8 none).1) = some (some 96) := by
  decide

/-- C9 (amended): `dmheap_init` fails exactly when the buffer is null or the
size is zero; the alignment is not validated at all. -/
theorem init_rejects_exactly_null_or_empty :
    ∀ buffer size alignment : Nat,
      dmheap_init buffer size alignment = none ↔ buffer = 0 ∨ size = 0 := by
  intro buffer size alignment
  unfold dmheap_init
  by_cases h : buffer = 0 ∨ size = 0
  · simp [h]
  · simp [h]

/-- C10: double free is a soft error.  If `p` is the payload base of a used
block (the lists carrying no duplicate headers or payload bases) and a first
`free(p, c)` completes, then a second `free(p, c')` finds no used block with
payload base `p` and returns the state unchanged; it performs no list
mutation at all (the not-found branch returns before any `block_set_next`,
so the self-link assertion cannot trip). -/
theorem double_free_soft_error :
    ∀ (s s' : context_t) (p : Nat) (c c' : Bool) (b : block_t),
      p ≠ 0 →
      (s.used_list.map block_t.self).Nodup →
      (s.used_list.map block_t.address).Nodup →
      find_block_by_address s.used_list p = some b →
      dmheap_free s p c = some s' →
      find_block_by_address s'.used_list p = none ∧
        dmheap_free s' p c' = some s' := by
  intro s s' p c c' b hp hndself hndaddr hfind hfree
  have hbmem := (find_block_by_address_some hfind).1
  have hbaddr := (find_block_by_address_some hfind).2
  have husedeq : s'.used_list = remove_block s.used_list b.self := by
    unfold dmheap_free at hfree
    rw [if_neg hp, hfind] at hfree
    cases c with
    | false =>
      simp only [Bool.false_eq_true, if_false] at hfree
      cases hfree
      rfl
    | true =>
      simp only [if_true] at hfree
      cases hmp : free_merge_pass b s.free_list with
      | none => rw [hmp] at hfree; cases hfree
      | some pr =>
        obtain ⟨b₂, rest₂⟩ := pr
        rw [hmp] at hfree
        cases hfree
        rfl
  have hnone : find_block_by_address s'.used_list p = none := by
    rw [husedeq]
    apply find_block_by_address_eq_none
    intro x hx hxa
    have hxmem : x ∈ s.used_list := mem_of_mem_remove_block hx
    have hxb : x = b :=
      List.inj_on_of_nodup_map hndaddr hxmem hbmem (by rw [hxa, hbaddr])
    subst hxb
    exact not_mem_remove_block_self hndself hbmem hx
  refine ⟨hnone, ?_⟩
  unfold dmheap_free
  rw [if_neg hp, hnone]

/-- Witness for C10: allocate, free once, then free again at pointer `96`. -/
theorem double_free_soft_error_witness :
    (let s' : context_t :=
      { heap_start := 64
        heap_size := 4096
        free_list := [{ self := 64, address := 96, size := 64, owner := none },
                      { self := 160, address := 192, size := 3968, owner := none }]
        used_list := []
        alignment := 8
        module_list := [] }
    find_block_by_address s'.used_list 96 = none ∧
      dmheap_free s' 96 true = some s') := by
  exact double_free_soft_error
    { heap_start := 64
      heap_size := 4096
      free_list := [{ self := 160, address := 192, size := 3968, owner := none }]
      used_list := [{ self := 64, address := 96, size := 64, owner := none }]
      alignment := 8
      module_list := [] }
    { heap_start := 64
      heap_size := 4096
      free_list := [{ self := 64, address := 96, size := 64, owner := none },
                    { self := 160, address := 192, size := 3968, owner := none }]
      used_list := []
      alignment := 8
      module_list := [] }
    96 false true
    { self := 64, address := 96, size := 64, owner := none }
    (by decide) (by decide) (by decide) (by decide) (by decide)

/-- C5 is refuted in its `payload_size ≥ 1` part: the state reached from
`init(64, 4096, 8)` by `aligned_alloc(64, 8, NULL)` is reachable, and its
free list contains a block of payload size `0` (the padding in front of the
aligned payload is exactly one header, so `split_block` is called with size
`0`). -/
theorem reachable_zero_size_block :
    Reachable (dmheap_aligned_alloc
        { heap_start := 64
          heap_size := 4096
          free_list := [{ self := 64, address := 96, size := 4064, owner := none }]
          used_list := []
          alignment := 8
          module_list := [] } 64 8 none).2 ∧
      ((dmheap_aligned_alloc
        { heap_start := 64
          heap_size := 4096
          free_list := [{ self := 64, address := 96, size := 4064, owner := none }]
          used_list := []
          alignment := 8
          module_list := [] } 64 8 none).2.free_list.map
          block_t.size).contains 0 = true :=
  ⟨Reachable.aligned_alloc _ 64 8 none (Reachable.init 64 4096 8 _ (by decide)),
    by decide⟩

/-- C5 (amended): in every state reachable from `dmheap_init` by public
operations, every block on the free or used list satisfies
`payload_base = address_of(block) + sizeof(header)`.  (The `payload_size ≥ 1`
half of the claim is false, see the counterexample.) -/
theorem header_placement_invariant :
    ∀ s : context_t, Reachable s →
      ∀ b : block_t, b ∈ s.free_list ∨ b ∈ s.used_list →
        b.address = b.self + sizeof_block_t := by
  intro s h b hb
  have hinv := reachable_context_inv h
  rcases hb with hb | hb
  exacts [hinv.1 b hb, hinv.2 b hb]

/-- Witness for the amended C5 theorem: the single free block of a freshly
initialized heap. -/
theorem header_placement_invariant_witness :
    ({ self := 64, address := 96, size := 4064, owner := none } : block_t).address =
      ({ self := 64, address := 96, size := 4064, owner := none } : block_t).self +
        sizeof_block_t :=
  header_placement_invariant
    { heap_start := 64
      heap_size := 4096
      free_list := [{ self := 64, address := 96, size := 4064, owner := none }]
      used_list := []
      alignment := 8
      module_list := [] }
    (Reachable.init 64 4096 8 _ (by decide))
    { self := 64, address := 96, size := 4064, owner := none }
    (Or.inl (by decide))

/-- C6: module atomicity of `dmheap_unregister_module`.  If the module named
`name` is registered with record `r`, the used list has no duplicate headers
or payload bases, and some used block houses the record (its payload base is
the record's address), then after the call no used block is owned by `r`,
every used block that was owned by `r` is on the free list, the housing
block has moved to the free list, and no block with the record's payload
base remains on the used list. -/
theorem unregister_module_atomicity :
    ∀ (s : context_t) (name : String) (r : module_t),
      find_module_by_name s.module_list name = some r →
      (s.used_list.map block_t.self).Nodup →
      (s.used_list.map block_t.address).Nodup →
      (∃ hb ∈ s.used_list, hb.address = r.self) →
      (∀ b ∈ (dmheap_unregister_module s name).used_list,
        b.owner ≠ some r.self) ∧
      (∀ b ∈ s.used_list, b.owner = some r.self →
        b ∈ (dmheap_unregister_module s name).free_list) ∧
      (∃ b ∈ (dmheap_unregister_module s name).free_list, b.address = r.self) ∧
      (∀ b ∈ (dmheap_unregister_module s name).used_list,
        b.address ≠ r.self) := by
  intro s name r hfind hndself hndaddr hex
  obtain ⟨hhb, hhbmem, hhbaddr⟩ := hex
  unfold dmheap_unregister_module
  rw [hfind]
  dsimp only
  unfold delete_module
  rw [release_memory_of_module_eq]
  dsimp only
  have hufsub : (s.used_list.filter (fun b => b.owner != some r.self)).Sublist
      s.used_list := List.filter_sublist _
  have hmemuf : ∀ b ∈ s.used_list.filter (fun b => b.owner != some r.self),
      b ∈ s.used_list := fun b hb => List.mem_of_mem_filter hb
  have howner_uf : ∀ b ∈ s.used_list.filter (fun b => b.owner != some r.self),
      b.owner ≠ some r.self := by
    intro b hb
    have := (List.mem_filter.mp hb).2
    simpa using this
  have hmoved : ∀ b ∈ s.used_list, b.owner = some r.self →
      b ∈ (s.used_list.filter (fun b => b.owner == some r.self)).reverse ++
        s.free_list := by
    intro b hb ho
    exact List.mem_append.mpr (Or.inl (List.mem_reverse.mpr
      (List.mem_filter.mpr ⟨hb, by simp [ho]⟩)))
  cases hfind2 : find_block_by_address
      (s.used_list.filter (fun b => b.owner != some r.self)) r.self with
  | none =>
    dsimp only
    have hall := find_block_by_address_none hfind2
    have hhowner : hhb.owner = some r.self := by
      by_contra hne
      have hin : hhb ∈ s.used_list.filter (fun b => b.owner != some r.self) :=
        List.mem_filter.mpr ⟨hhbmem, by simpa using hne⟩
      exact hall hhb hin hhbaddr
    exact ⟨howner_uf, hmoved, ⟨hhb, hmoved hhb hhbmem hhowner, hhbaddr⟩, hall⟩
  | some blk =>
    dsimp only
    obtain ⟨hblkmem_uf, hblkaddr⟩ := find_block_by_address_some hfind2
    have hblkmem : blk ∈ s.used_list := hmemuf blk hblkmem_uf
    have hnduf : ((s.used_list.filter
        (fun b => b.owner != some r.self)).map block_t.self).Nodup :=
      List.Nodup.sublist (List.Sublist.map block_t.self hufsub) hndself
    refine ⟨?_, ?_, ?_, ?_⟩
    · intro b hb
      exact howner_uf b (mem_of_mem_remove_block hb)
    · intro b hb ho
      exact List.mem_cons_of_mem _ (hmoved b hb ho)
    · exact ⟨blk, List.mem_cons_self _ _, hblkaddr⟩
    · intro b hb hba
      have hbuf : b ∈ s.used_list.filter (fun x => x.owner != some r.self) :=
        mem_of_mem_remove_block hb
      have hbmem : b ∈ s.used_list := hmemuf b hbuf
      have hbeq : b = blk :=
        List.inj_on_of_nodup_map hndaddr hbmem hblkmem (by rw [hba, hblkaddr])
      subst hbeq
      exact not_mem_remove_block_self hnduf hbuf hb

/-- Witness for C6: a heap with the record of module `"m"` housed at payload
base `96` and one block owned by it. -/
theorem unregister_module_atomicity_witness :
    (let s : context_t :=
      { heap_start := 32
        heap_size := 4096
        free_list := []
        used_list := [{ self := 64, address := 96, size := 72, owner := none },
                      { self := 200, address := 232, size := 8, owner := some 96 }]
        alignment := 8
        module_list := [⟨96, "m"⟩] }
    (∀ b ∈ (dmheap_unregister_module s "m").used_list, b.owner ≠ some 96) ∧
      (∃ b ∈ (dmheap_unregister_module s "m").free_list, b.address = 96)) := by
  have h := unregister_module_atomicity
    { heap_start := 32
      heap_size := 4096
      free_list := []
      used_list := [{ self := 64, address := 96, size := 72, owner := none },
                    { self := 200, address := 232, size := 8, owner := some 96 }]
      alignment := 8
      module_list := [⟨96, "m"⟩] } "m" ⟨96, "m"⟩
    (by decide) (by decide) (by decide)
    ⟨{ self := 64, address := 96, size := 72, owner := none }, by decide,
      by decide⟩
  exact ⟨h.1, h.2.2.1⟩

/-- C1 is refuted as stated: with default alignment `64` and a free block
whose payload base `64` needs padding `64 ≥ sizeof(header)` for alignment
`128`, `split_block` re-aligns the split offset `32` up to `64`, so the
usable block's payload base is `160` while the function still returns the
originally computed aligned address `128` — the returned pointer is neither
the usable block's payload base nor the payload base of the block pushed
onto the used list. -/
theorem aligned_alloc_pad_return_counterexample :
    (let s : context_t :=
      { heap_start := 32
        heap_size := 2048
        free_list := [{ self := 32, address := 64, size := 1000, owner := none }]
        used_list := []
        alignment := 64
        module_list := [] }
    align_pointer 64 128 = 128 ∧
      sizeof_block_t ≤ align_pointer 64 128 - 64 ∧
      (dmheap_aligned_alloc s 128 64 none).1 = some 128 ∧
      (dmheap_aligned_alloc s 128 64 none).2.used_list.head?.map
        block_t.address = some 160) := by
  decide

/-- C1 (amended): when the default alignment is a power of two dividing
`sizeof(block_t)` (and the chosen block's payload base), the claim holds:
if the chosen free block needs padding `pad ≥ sizeof(header)` for the
power-of-two alignment `2^k`, the allocation succeeds, the returned pointer
is the aligned-up payload address, and it equals the payload base of the
usable block pushed onto the used list (the head of the used list). -/
theorem aligned_alloc_pad_returns_usable_payload :
    ∀ (s : context_t) (k j size : Nat) (m : Option String) (b : block_t),
      s.alignment = 2 ^ j → j ≤ 5 → k ≤ 63 →
      find_suitable_block s.free_list (align_size size (2 ^ k)) (2 ^ k) =
        some b →
      2 ^ j ∣ b.address → b.address + 2 ^ k + 96 ≤ 2 ^ 64 →
      sizeof_block_t ≤ align_pointer b.address (2 ^ k) - b.address →
      (dmheap_aligned_alloc s (2 ^ k) size m).1 =
          some (align_pointer b.address (2 ^ k)) ∧
        (dmheap_aligned_alloc s (2 ^ k) size m).2.used_list.head?.map
            block_t.address = some (align_pointer b.address (2 ^ k)) := by
  intro s k j size m b hal hj hk hfind hdvdb hbound hpad32
  have hk64 : k ≤ 64 := by omega
  have h32 : sizeof_block_t = 32 := rfl
  have hb1 : b.address + 2 ^ k ≤ 2 ^ 64 := by omega
  have hge := le_align_pointer (p := b.address) hk64 hb1
  have hlt := align_pointer_lt (p := b.address) hk64 hb1
  have hjk : j ≤ k := by
    by_contra hcon
    push_neg at hcon
    have hle : (2 : Nat) ^ k ≤ 2 ^ 5 := Nat.pow_le_pow_right (by omega) (by omega)
    have h25 : (2 : Nat) ^ 5 = 32 := by norm_num
    omega
  have hdvd_pad : (2 : Nat) ^ j ∣ align_pointer b.address (2 ^ k) - b.address :=
    Nat.dvd_sub' (dvd_align_pointer hjk hk64 hb1) hdvdb
  have h2j32 : (2 : Nat) ^ j ∣ sizeof_block_t := by
    have hd := pow_dvd_pow 2 hj
    rw [h32]
    simpa [show (2 : Nat) ^ 5 = 32 by norm_num] using hd
  have h2jle : (2 : Nat) ^ j ≤ 32 := by
    have := Nat.pow_le_pow_right (by omega : 1 ≤ 2) hj
    simpa [show (2 : Nat) ^ 5 = 32 by norm_num] using this
  have hA63 : (2 : Nat) ^ k ≤ 2 ^ 63 := Nat.pow_le_pow_right (by omega) hk
  have hcollapse : align_size
      (align_pointer b.address (2 ^ k) - b.address - sizeof_block_t)
      s.alignment =
      align_pointer b.address (2 ^ k) - b.address - sizeof_block_t := by
    rw [hal]
    exact align_size_eq_of_dvd (by omega) (by omega)
      (Nat.dvd_sub' hdvd_pad h2j32)
  have hfb := (find_suitable_block_spec hfind).2
  rw [if_pos (by omega : align_pointer b.address (2 ^ k) - b.address > 0)]
    at hfb
  have hc1 : ¬ b.size <
      (align_pointer b.address (2 ^ k) - b.address - sizeof_block_t) +
        sizeof_block_t + 1 := by omega
  have hc2 : ¬ b.size <
      align_size (align_pointer b.address (2 ^ k) - b.address - sizeof_block_t)
        s.alignment + sizeof_block_t + 1 := by
    rw [hcollapse]
    omega
  have hsp := split_block_eq_some hc1 hc2
  unfold dmheap_aligned_alloc
  dsimp only
  rw [hfind]
  dsimp only
  rw [aa_handle_padding_big_pad
    (s := { s with free_list := remove_block s.free_list b.self })
    (by omega) (by omega) hsp]
  dsimp only
  constructor
  · exact (aa_finish_spec _ _ _ _ _).1
  · rw [(aa_finish_spec _ _ _ _ _).2]
    simp only [Option.some.injEq]
    rw [hcollapse]
    omega

/-- Witness for the amended C1 theorem: default alignment `8`, requested
alignment `64`, chosen block with payload base `32`, padding `32`. -/
theorem aligned_alloc_pad_returns_usable_payload_witness :
    (let s : context_t :=
      { heap_start := 32
        heap_size := 1064
        free_list := [{ self := 0, address := 32, size := 1000, owner := none }]
        used_list := []
        alignment := 8
        module_list := [] }
    (dmheap_aligned_alloc s (2 ^ 6) 8 none).1 =
        some (align_pointer 32 (2 ^ 6)) ∧
      (dmheap_aligned_alloc s (2 ^ 6) 8 none).2.used_list.head?.map
          block_t.address = some (align_pointer 32 (2 ^ 6))) := by
  exact aligned_alloc_pad_returns_usable_payload
    { heap_start := 32
      heap_size := 1064
      free_list := [{ self := 0, address := 32, size := 1000, owner := none }]
      used_list := []
      alignment := 8
      module_list := [] }
    6 3 8 none { self := 0, address := 32, size := 1000, owner := none }
    (by decide) (by decide) (by decide) (by decide) (by decide) (by decide)
    (by decide)

/-- C2: every successful allocation returns an address that is a multiple of
the requested alignment.  The requested alignment is a power of two `2^k`
(§4.1.2 of the spec); the context's default alignment is a power of two
`2^j` dividing `sizeof(block_t)` (`j ≤ 5`) and dividing every free block's
payload base, which are the configuration and reachable-state invariants of
the allocator.  The conjuncts cover `aligned_alloc`, `malloc`, and the two
allocating paths of `realloc` (null pointer, and grow). -/
theorem allocation_addresses_aligned :
    ∀ (s : context_t) (k j size ptr : Nat) (m : Option String),
      s.alignment = 2 ^ j → j ≤ 5 → k ≤ 63 →
      (∀ b ∈ s.free_list,
        2 ^ j ∣ b.address ∧ b.address + 2 ^ k + 128 ≤ 2 ^ 64) →
      (∀ r, (dmheap_aligned_alloc s (2 ^ k) size m).1 = some r →
        r % 2 ^ k = 0) ∧
      (∀ r, (dmheap_malloc s size m).1 = some r → r % s.alignment = 0) ∧
      (∀ r, (dmheap_realloc s 0 size m).1 = some r → r % s.alignment = 0) ∧
      (∀ b r, ptr ≠ 0 → find_block_by_address s.used_list ptr = some b →
        b.size < size → (dmheap_realloc s ptr size m).1 = some r →
        r % s.alignment = 0) := by
  intro s k j size ptr m hal hj hk hfree
  have h2jle : (2 : Nat) ^ j ≤ 32 := by
    have := Nat.pow_le_pow_right (by omega : 1 ≤ 2) hj
    simpa [show (2 : Nat) ^ 5 = 32 by norm_num] using this
  have h2kpos : 0 < (2 : Nat) ^ k := Nat.pos_pow_of_pos _ (by omega)
  have h2jpos : 0 < (2 : Nat) ^ j := Nat.pos_pow_of_pos _ (by omega)
  have hfree' : ∀ b ∈ s.free_list,
      2 ^ j ∣ b.address ∧ b.address + 2 ^ k + 96 ≤ 2 ^ 64 := by
    intro b hb
    have h2 := (hfree b hb).2
    exact ⟨(hfree b hb).1, by omega⟩
  have hfreej : ∀ b ∈ s.free_list,
      2 ^ j ∣ b.address ∧ b.address + 2 ^ j + 96 ≤ 2 ^ 64 := by
    intro b hb
    have h2 := (hfree b hb).2
    exact ⟨(hfree b hb).1, by omega⟩
  have hjmod : ∀ r, (dmheap_aligned_alloc s (2 ^ j) size m).1 = some r →
      r % s.alignment = 0 := by
    intro r hr
    rw [hal]
    exact Nat.mod_eq_zero_of_dvd
      (dmheap_aligned_alloc_dvd hal hj (by omega) hfreej r hr)
  refine ⟨?_, ?_, ?_, ?_⟩
  · intro r hr
    exact Nat.mod_eq_zero_of_dvd
      (dmheap_aligned_alloc_dvd hal hj hk hfree' r hr)
  · intro r hr
    unfold dmheap_malloc at hr
    rw [hal] at hr
    exact hjmod r hr
  · intro r hr
    unfold dmheap_realloc at hr
    rw [if_pos rfl, hal] at hr
    exact hjmod r hr
  · intro b r hp hfind hlt hr
    unfold dmheap_realloc at hr
    rw [if_neg hp, hfind] at hr
    dsimp only at hr
    rw [if_neg (by omega : ¬ size < b.size),
        if_pos (by omega : size > b.size)] at hr
    cases haa : dmheap_aligned_alloc s s.alignment size m with
    | mk ro s' =>
      rw [haa] at hr
      cases ro with
      | none => cases hr
      | some np =>
        dsimp only at hr
        cases hr
        refine hjmod r ?_
        rw [← hal, haa]

/-- Witness for C2: on a fresh 4 KiB heap with default alignment `8`, the
64-byte-aligned allocation returns `128` (a multiple of `64`) and `malloc`
returns `96` (a multiple of `8`). -/
theorem allocation_addresses_aligned_witness :
    (let s : context_t :=
      { heap_start := 64
        heap_size := 4096
        free_list := [{ self := 64, address := 96, size := 4064, owner := none }]
        used_list := []
        alignment := 8
        module_list := [] }
    (dmheap_aligned_alloc s (2 ^ 6) 8 none).1 = some 128 ∧
      (128 : Nat) % 2 ^ 6 = 0 ∧
      (dmheap_malloc s 8 none).1 = some 96 ∧ (96 : Nat) % 8 = 0) := by
  refine ⟨by decide, ?_, by decide, ?_⟩
  · exact (allocation_addresses_aligned
      { heap_start := 64
        heap_size := 4096
        free_list := [{ self := 64, address := 96, size := 4064, owner := none }]
        used_list := []
        alignment := 8
        module_list := [] }
      6 3 8 0 none (by decide) (by decide) (by decide) (by decide)).1 128
      (by decide)
  · exact (allocation_addresses_aligned
      { heap_start := 64
        heap_size := 4096
        free_list := [{ self := 64, address := 96, size := 4064, owner := none }]
        used_list := []
        alignment := 8
        module_list := [] }
      6 3 8 0 none (by decide) (by decide) (by decide) (by decide)).2.1 96
      (by decide)
